import Mathlib

/-!
# Verification of the `python_cli_utils` choice-prompting library

This file gives a shallow embedding of `choices_prompt.py` and `tty_utils.py`
and proves the specification claims about them.

Modelling conventions:
* Python `str` values are Lean `String`s (lists of Unicode code points).
* The interactive input stream is a `List String` of the lines that will be
  read; an exhausted list models end-of-input (`EOFError`).
* The output sink is an accumulated `String`; `print(x, file=f)` appends
  `x ++ "\n"`.
* A fatal, uncaught exception (an `assert` failure or an unhandled by-key
  dictionary access) is modelled by an `Option`-valued function returning
  `none`; normal completion returns `some` of the result.
-/

/-- The set of code points stripped by Python's `str.strip()` (Python's
Unicode whitespace: `\t`..`\r`, `\x1c`..`\x20`, NEL, NBSP, ogham space,
the U+2000 block, line/paragraph separators, narrow NBSP, MMSP, and
ideographic space). -/
def isPySpace (c : Char) : Bool :=
  decide ((9 ≤ c.toNat ∧ c.toNat ≤ 13) ∨ (28 ≤ c.toNat ∧ c.toNat ≤ 32) ∨
    c.toNat = 133 ∨ c.toNat = 160 ∨ c.toNat = 5760 ∨
    (8192 ≤ c.toNat ∧ c.toNat ≤ 8202) ∨ c.toNat = 8232 ∨ c.toNat = 8233 ∨
    c.toNat = 8239 ∨ c.toNat = 8287 ∨ c.toNat = 12288)

/-- Python `s.strip()` on the code-point list: drop whitespace from the left,
then from the right. -/
def pyStripList (l : List Char) : List Char :=
  ((l.dropWhile isPySpace).reverse.dropWhile isPySpace).reverse

/-- Case folding of one code point, modelling Python `str.casefold()` on the
code points this library manipulates: ASCII `A`..`Z` and Latin-1 `À`..`Þ`
(except `×`) map to their lowercase forms 32 code points higher, and `ß`
(U+00DF) full-folds to `"ss"`.  Every other code point folds to itself. -/
def charFold (c : Char) : List Char :=
  if 65 ≤ c.toNat ∧ c.toNat ≤ 90 then [Char.ofNat (c.toNat + 32)]
  else if c.toNat = 223 then [Char.ofNat 115, Char.ofNat 115]
  else if 192 ≤ c.toNat ∧ c.toNat ≤ 222 ∧ c.toNat ≠ 215 then
    [Char.ofNat (c.toNat + 32)]
  else [c]

/-- Python `s.casefold()` on the code-point list. -/
def pyCasefoldList (l : List Char) : List Char :=
  l.flatMap charFold

/-- The normalization helper `normalize_choice_str` from `choices_prompt.py`:
`return s.strip().casefold()`. -/
def normalize_choice_str (s : String) : String :=
  ⟨pyCasefoldList (pyStripList s.data)⟩

/-! ## The choice table of `choices_prompt`

`choices_prompt` first rewrites each top-level element that is a single
string into a one-element tuple, then builds
`choices_table = {normalize_choice_str(choice_str): choice_tuple[0]
for choice_tuple in choices for choice_str in choice_tuple}`.
A Python dict comprehension inserts entries in iteration order, a later
insertion with an equal key replacing the earlier one.  The table is
modelled as a function `String → Option String` built by successive
insertions. -/

/-- A choice passed to `choices_prompt`: either a single string or a tuple
of alias strings (`typing.Union[Collection[str], Collection[Sequence[str]]]`). -/
def asTuple : String ⊕ List String → List String
  | .inl s => [s]
  | .inr t => t

/-- One dict insertion `t[k] = v`; looking up `k` afterwards finds `v`,
every other key is unchanged. -/
def insertEntry (t : String → Option String) (k v : String) :
    String → Option String :=
  fun q => if q = k then some v else t q

/-- The inner comprehension loop: for every `choice_str` in `choice_tuple`,
insert `normalize_choice_str choice_str ↦ choice_tuple[0]`.  (`headD ""` is
only ever evaluated while iterating over a non-empty tuple, where it equals
`choice_tuple[0]`.) -/
def insertChoiceTuple (t : String → Option String) (tup : List String) :
    String → Option String :=
  tup.foldl (fun t s => insertEntry t (normalize_choice_str s) (tup.headD "")) t

/-- The dict comprehension building `choices_table`. -/
def buildTable (tuples : List (List String)) : String → Option String :=
  tuples.foldl insertChoiceTuple (fun _ => none)

/-- The default invalid-choice message generator of `choices_prompt`:
`f"\"{response}\" is not a valid choice."`. -/
def default_invalid_handler (response : String) : String :=
  "\"" ++ response ++ "\" is not a valid choice."

/-! ## The prompt loop of `choices_prompt`

The `while True:` loop of `choices_prompt`, one recursive step per line
read.  Arguments after the colon: the remaining input lines and the output
accumulated so far.  Result: `none` models an uncaught exception (the
dictionary access `choices_table[default]`, which the construction-time
assertion keeps from ever being reached with a missing key); otherwise
`some (selection, output, remainingInput)` where `selection = none` models
the Python return value `None` (end-of-input).  `input(prompt)` writes the
prompt label to the sink and then reads; with no line left it raises
`EOFError`, which the loop answers by printing one bare newline and
returning `None`. -/
def choicesPromptRun (prompt : String) (table : String → Option String)
    (dflt : Option String) (handler : String → String) :
    List String → String → Option (Option String × String × List String)
  | [], out => some (none, out ++ prompt ++ "\n", [])
  | line :: rest, out =>
    let out2 := out ++ prompt
    if normalize_choice_str line = "" then
      match dflt with
      | none => choicesPromptRun prompt table dflt handler rest out2
      | some d => (table d).map (fun c => (some c, out2, rest))
    else
      match table (normalize_choice_str line) with
      | some c => some (some c, out2, rest)
      | none =>
        choicesPromptRun prompt table dflt handler rest
          (out2 ++ handler line ++ "\n" ++ "\n")

/-- The whole of `choices_prompt`: empty `choices` returns `None` with no
output; otherwise the choice table is built, the default (if any) is
normalized and asserted to be a table key (`none` models the assertion
failure, which happens before any output is written or input read), the
invalid-input handler defaults to `default_invalid_handler`, and the prompt
loop runs on the given input lines. -/
def choices_prompt (prompt : String) (choices : List (String ⊕ List String))
    (dflt : Option String) (handler : Option (String → String))
    (inputs : List String) : Option (Option String × String × List String) :=
  if choices.isEmpty then some (none, "", inputs)
  else
    let table := buildTable (choices.map asTuple)
    let h := handler.getD default_invalid_handler
    match dflt with
    | none => choicesPromptRun prompt table none h inputs ""
    | some d0 =>
      if (table (normalize_choice_str d0)).isSome then
        choicesPromptRun prompt table (some (normalize_choice_str d0)) h inputs ""
      else none

/-! ## The legacy free-input (prefix-matching) lookup -/

/-- Result of the free-input matcher's lookup. -/
inductive PrefixLookupResult
  | useDefault
  | found (choice : String)
  | ambiguous
  | notFound
deriving DecidableEq

/-- Python `s.startswith(t)`: `t` is a leading code-point run of `s`. -/
def pyStartswith (s t : String) : Bool :=
  List.isPrefixOf t.data s.data

/-- Modelled from the spec: the legacy free-input (prefix-matching) prompt's
lookup is not part of the sources under `src/` (only the exact-match
`choices_prompt` is); this follows the spec's Prefix Matcher contract and
its implementation guidance (an exact-equality pass over the stored
choices before the prefix-collection pass).  The stored pairs are the
original choice strings compared through `normalize_choice_str`; an empty
normalized response signals "use default". -/
def freeInputLookup (choices : List String) (response : String) :
    PrefixLookupResult :=
  let key := normalize_choice_str response
  if key = "" then .useDefault
  else
    match choices.find? (fun c => normalize_choice_str c == key) with
    | some c => .found c
    | none =>
      match choices.filter (fun c => pyStartswith (normalize_choice_str c) key) with
      | [] => .notFound
      | [c] => .found c
      | _ => .ambiguous

/-- The reference lookup the claim states, in its words: collect every
stored choice whose normalized form has `key` as a prefix; zero matches is
`notFound`, exactly one match is that choice, and more than one match is
`ambiguous` unless one of the matches is exactly equal to `key`, in which
case that exact match is returned. -/
def freeInputLookupRef (choices : List String) (key : String) :
    PrefixLookupResult :=
  match choices.filter (fun c => pyStartswith (normalize_choice_str c) key) with
  | [] => .notFound
  | [c] => .found c
  | ms =>
    match ms.find? (fun c => normalize_choice_str c == key) with
    | some c => .found c
    | none => .ambiguous

/-! ## `ellipsize` from `tty_utils.py` -/

/-- Truncation: `ellipsize(s, width)` asserts `width > 0` (`none` models the assertion
failure; a non-positive Python `int` is modelled by `width = 0`), returns
`s` unchanged when it already fits, hard-truncates to `width` code points
when `width` is smaller than the ellipsis `"..."`, and otherwise truncates
to `width - 3` code points plus the ellipsis, asserting that the result has
length exactly `width`. -/
def ellipsize (s : String) (width : Nat) : Option String :=
  if width = 0 then none
  else if s.data.length ≤ width then some s
  else
    let ellipsis := "..."
    if width < ellipsis.data.length then some ⟨s.data.take width⟩
    else
      let s2 : String := ⟨s.data.take (width - ellipsis.data.length) ++ ellipsis.data⟩
      if s2.data.length = width then some s2 else none

/-! ## `numbered_choices_prompt` -/

/-- The per-item lines printed by `numbered_choices_prompt`:
`item_formatter(f"  {i}: {choice}")` for `(i, choice)` in
`enumerate(choices, 1)`. -/
def numberedItems (fmt : String → String) (i : Nat) :
    List String → List String
  | [] => []
  | c :: rest => fmt ("  " ++ toString i ++ ": " ++ c) :: numberedItems fmt (i + 1) rest

/-- Python `int(response)` as used by `numbered_choices_prompt`, where the
responses reaching it are canonical digit strings: `some` of the decimal
value of a non-empty all-digit string, `none` (a raised `ValueError`)
otherwise. -/
def pyInt? (s : String) : Option Nat :=
  if s.data ≠ [] ∧ s.data.all (fun c => decide (48 ≤ c.toNat ∧ c.toNat ≤ 57)) then
    some (s.data.foldl (fun n c => n * 10 + (c.toNat - 48)) 0)
  else none

/-- The invalid-input message generator of `numbered_choices_prompt`. -/
def numbered_invalid_handler (max_choice : Nat) (response : String) : String :=
  "\"" ++ response ++ "\" is not a valid choice.\n" ++
    "The entered choice must be between 1 and " ++ toString max_choice ++
    ", inclusive.\n" ++
    "Enter \"help\" to show the choices again or \"quit\" to quit."

/-- The `while True:` loop of `numbered_choices_prompt`: call
`choices_prompt`; on `None` or `"q"` return `None`; on `"?"` print a blank
line and the instructions and loop; otherwise convert the response with
`int(...)` (a failure raises, modelled `none`), assert it is within range,
and return `choice - 1`.  `fuel` bounds the recursion; every loop iteration
consumes at least one input line, so `inputs.length + 1` fuel never runs
out. -/
def numberedLoop (prompt : String) (allowed : List (String ⊕ List String))
    (dflt : Option String) (handler : String → String) (max_choice : Nat)
    (instructions : String) :
    Nat → List String → String → Option (Option Nat × String × List String)
  | 0, _, _ => none
  | fuel + 1, inputs, out =>
    match choices_prompt prompt allowed dflt (some handler) inputs with
    | none => none
    | some (resp, innerOut, rest) =>
      match resp with
      | none => some (none, out ++ innerOut, rest)
      | some r =>
        if r = "q" then some (none, out ++ innerOut, rest)
        else if r = "?" then
          numberedLoop prompt allowed dflt handler max_choice instructions fuel
            rest (out ++ innerOut ++ "\n" ++ instructions ++ "\n")
        else
          match pyInt? r with
          | none => none
          | some n =>
            if 1 ≤ n ∧ n ≤ max_choice then some (some (n - 1), out ++ innerOut, rest)
            else none

/-- The numbered prompt `numbered_choices_prompt`: empty `choices` returns `None` with no
output; exactly one choice returns index `0` immediately, with no output
written and no input read; only then is the `default_index` range
assertion checked (`none` models its failure).  Otherwise the instruction
block is printed, the prompt label is synthesized (`[1, 2]: ` for two
choices, `[1..N]: ` otherwise, suffixed with `[default+1] ` when a default
exists, prefixed with the caller's prompt when one is given), and the loop
runs over numeric alias tuples `("1",) … ("N",)` plus `("?", "h", "help")`
and `("q", "quit")`. -/
def numbered_choices_prompt (choices : List String) (default_index : Option Int)
    (preamble : String) (promptArg : Option String)
    (fmt : Option (String → String)) (inputs : List String) :
    Option (Option Nat × String × List String) :=
  if choices.isEmpty then some (none, "", inputs)
  else
    let max_choice := choices.length
    if max_choice = 1 then some (some 0, "", inputs)
    else if !(match default_index with
              | none => true
              | some di => decide (0 ≤ di ∧ di < (max_choice : Int))) then none
    else
      let fmt := fmt.getD id
      let instructions := String.intercalate "\n"
        ((if preamble = "" then [] else [preamble]) ++ numberedItems fmt 1 choices)
      let default_hint := match default_index with
        | none => ""
        | some di => "[" ++ toString (di + 1) ++ "] "
      let default_prompt :=
        if max_choice = 2 then "[1, 2]: " ++ default_hint
        else "[1.." ++ toString max_choice ++ "]: " ++ default_hint
      let prompt := match promptArg with
        | none => default_prompt
        | some p => if p = "" then default_prompt else p ++ " " ++ default_prompt
      let allowed : List (String ⊕ List String) :=
        ((List.range max_choice).map (fun i => .inr [toString (i + 1)])) ++
          [.inr ["?", "h", "help"], .inr ["q", "quit"]]
      numberedLoop prompt allowed
        (default_index.map (fun di => toString (di + 1)))
        (numbered_invalid_handler max_choice) max_choice instructions
        (inputs.length + 1) inputs (instructions ++ "\n")

/-! ## Helper lemmas -/

/-- Evaluating the inner comprehension fold at a key: an alias of the tuple
matching the key makes the lookup the inserted value, anything else falls
through to the previous table. -/
theorem foldl_insertEntry_eq (v k : String) :
    ∀ (l : List String) (t : String → Option String),
      (l.foldl (fun t s => insertEntry t (normalize_choice_str s) v) t) k
        = if l.any (fun s => normalize_choice_str s == k) then some v else t k := by
  intro l
  induction l with
  | nil => intro t; simp
  | cons s l ih =>
    intro t
    simp only [List.foldl_cons, List.any_cons, ih]
    by_cases hl : l.any (fun s => normalize_choice_str s == k) = true
    · simp [hl]
    · by_cases hs : normalize_choice_str s = k
      · simp [hl, hs, insertEntry]
      · simp [hl, hs, insertEntry, Ne.symm hs]

/-- Evaluating `insertChoiceTuple` at a key. -/
theorem insertChoiceTuple_eq (t : String → Option String) (tup : List String)
    (k : String) :
    insertChoiceTuple t tup k
      = if tup.any (fun s => normalize_choice_str s == k) then some (tup.headD "")
        else t k := by
  simp [insertChoiceTuple, foldl_insertEntry_eq]

/-- Evaluating the outer comprehension fold at a key: a later tuple touching
the key decides the lookup independently of the table accumulated so far. -/
theorem foldl_insertChoiceTuple_eq (k : String) :
    ∀ (ys : List (List String)) (t : String → Option String),
      (ys.foldl insertChoiceTuple t) k
        = if ys.any (fun tup => tup.any (fun s => normalize_choice_str s == k))
          then (ys.foldl insertChoiceTuple (fun _ => none)) k
          else t k := by
  intro ys
  induction ys with
  | nil => intro t; simp
  | cons tup ys ih =>
    intro t
    simp only [List.foldl_cons, List.any_cons]
    rw [ih (insertChoiceTuple t tup), ih (insertChoiceTuple (fun _ => none) tup)]
    by_cases hys : ys.any (fun tup => tup.any (fun s => normalize_choice_str s == k)) = true
    · simp [hys]
    · by_cases htup : tup.any (fun s => normalize_choice_str s == k) = true
      · simp [hys, htup, insertChoiceTuple_eq]
      · simp [hys, htup, insertChoiceTuple_eq]

/-! ## Claims -/

/-- C4: building the choice table inserts `normalize(alias) ↦ first alias of
the tuple` for every alias of every choice, and an alias of a later choice
normalizing to the same key silently overwrites the earlier mapping
(last-writer-wins); table building is a total function producing no output,
so no error is raised and no diagnostic is produced for collisions. -/
theorem claim_C4_table_last_writer_wins (xs ys : List (List String))
    (tup : List String) (k : String) :
    buildTable [tup] k
      = (if tup.any (fun s => normalize_choice_str s == k) then some (tup.headD "")
         else none)
    ∧ buildTable (xs ++ ys) k
      = if ys.any (fun tup => tup.any (fun s => normalize_choice_str s == k))
        then buildTable ys k
        else buildTable xs k := by
  constructor
  · simp [buildTable, insertChoiceTuple_eq]
  · show (List.foldl insertChoiceTuple (fun _ => none) (xs ++ ys)) k = _
    rw [List.foldl_append]
    exact foldl_insertChoiceTuple_eq k ys (List.foldl insertChoiceTuple (fun _ => none) xs)

/-- C2: a response line normalizing to the empty string resolves immediately
to the canonical choice stored under the (already normalized) default key
when a default was supplied, writing only the prompt label; with no default
the loop silently reads again — the recursive call receives an output sink
extended by nothing but the next prompt label, so no message of any kind is
printed for the blank line. -/
theorem claim_C2_blank_input (p line : String) (table : String → Option String)
    (hnd : String → String) (rest : List String) (out : String)
    (hb : normalize_choice_str line = "") :
    (∀ d c, table d = some c →
        choicesPromptRun p table (some d) hnd (line :: rest) out
          = some (some c, out ++ p, rest))
    ∧ choicesPromptRun p table none hnd (line :: rest) out
        = choicesPromptRun p table none hnd rest (out ++ p) := by
  constructor
  · intro d c hdc
    simp [choicesPromptRun, hb, hdc]
  · simp [choicesPromptRun, hb]

/-- C2 witness: blank (whitespace-only) input with default `"foo"` resolves
to the stored canonical `"Foo"`; blank input with no default retries with
only the repeated prompt label added to the sink. -/
theorem claim_C2_blank_input_witness :
    (choicesPromptRun "? " (buildTable [["Foo"], ["Bar"]]) (some "foo") id
        [" ", "Bar"] "" = some (some "Foo", "" ++ "? ", ["Bar"]))
    ∧ choicesPromptRun "? " (buildTable [["Foo"], ["Bar"]]) none id
        ["", "Bar"] ""
        = choicesPromptRun "? " (buildTable [["Foo"], ["Bar"]]) none id
            ["Bar"] ("" ++ "? ") :=
  ⟨(claim_C2_blank_input "? " " " (buildTable [["Foo"], ["Bar"]]) id ["Bar"] ""
      (by decide)).1 "foo" "Foo" (by decide),
   (claim_C2_blank_input "? " "" (buildTable [["Foo"], ["Bar"]]) id ["Bar"] ""
      (by decide)).2⟩

/-- C3: end-of-input makes the loop emit exactly one newline to the output
sink and return the no-selection result `none` — a value, not a raised
exception — and end-of-input on the very first read leaves the sink holding
exactly the prompt label followed by that single line terminator. -/
theorem claim_C3_eof (p : String) :
    (∀ (table : String → Option String) (d : Option String)
        (hnd : String → String) (out : String),
        choicesPromptRun p table d hnd [] out = some (none, out ++ p ++ "\n", []))
    ∧ (∀ (choices : List (String ⊕ List String)) (hnd : Option (String → String)),
        choices ≠ [] →
        choices_prompt p choices none hnd [] = some (none, p ++ "\n", [])) := by
  constructor
  · intro table d hnd out
    simp [choicesPromptRun]
  · intro choices hnd hne
    cases choices with
    | nil => exact absurd rfl hne
    | cons c cs => simp [choices_prompt, choicesPromptRun]

/-- C3 witness: end-of-input at the first read of a three-choice prompt. -/
theorem claim_C3_eof_witness :
    choices_prompt "Test message? " [.inl "Foo", .inl "Bar", .inl "Baz"] none none []
      = some (none, "Test message? " ++ "\n", []) :=
  (claim_C3_eof "Test message? ").2 [.inl "Foo", .inl "Bar", .inl "Baz"] none
    (by decide)

/-- C5: a response whose normalized form is non-empty and not a table key
makes the loop append the invalid-choice message — the handler applied to
the raw, un-normalized input — with its line terminator and a blank line,
then read again; the recursive equation shows the invalid input is handled
inside the loop, never escaping as an exception.  The default handler
renders `"<raw input>" is not a valid choice.`. -/
theorem claim_C5_invalid_input (p line : String) (table : String → Option String)
    (hnd : String → String) (d : Option String) (rest : List String) (out : String)
    (h1 : normalize_choice_str line ≠ "")
    (h2 : table (normalize_choice_str line) = none) :
    choicesPromptRun p table d hnd (line :: rest) out
      = choicesPromptRun p table d hnd rest (out ++ p ++ hnd line ++ "\n" ++ "\n")
    ∧ default_invalid_handler line = "\"" ++ line ++ "\" is not a valid choice." := by
  constructor
  · simp [choicesPromptRun, h1, h2]
  · rfl

/-- C5 witness: invalid raw input `" Qux "` (mixed case and whitespace kept
in the message) against choices `Foo`/`Bar`. -/
theorem claim_C5_invalid_input_witness :
    choicesPromptRun "? " (buildTable [["Foo"], ["Bar"]]) none
        default_invalid_handler [" Qux ", "foo"] ""
      = choicesPromptRun "? " (buildTable [["Foo"], ["Bar"]]) none
          default_invalid_handler ["foo"]
          ("" ++ "? " ++ default_invalid_handler " Qux " ++ "\n" ++ "\n")
    ∧ default_invalid_handler " Qux "
        = "\"" ++ " Qux " ++ "\" is not a valid choice." :=
  claim_C5_invalid_input "? " " Qux " (buildTable [["Foo"], ["Bar"]])
    default_invalid_handler none ["foo"] "" (by decide) (by decide)

/-- C9: `ellipsize` returns the string unchanged when it fits in `width`
code points; for `width ≥ 3` it truncates to the first `width - 3` code
points plus `"..."`, with total length exactly `width`; for `width < 3` it
hard-truncates to the first `width` code points with no ellipsis. -/
theorem claim_C9_ellipsize (s : String) (width : Nat) (hw : 0 < width) :
    (s.data.length ≤ width → ellipsize s width = some s)
    ∧ (3 ≤ width → width < s.data.length →
        ellipsize s width = some ⟨s.data.take (width - 3) ++ ("...").data⟩
        ∧ (⟨s.data.take (width - 3) ++ ("...").data⟩ : String).data.length = width)
    ∧ (width < 3 → width < s.data.length →
        ellipsize s width = some ⟨s.data.take width⟩) := by
  have h0 : ¬ width = 0 := by omega
  have e3 : ("...").data.length = 3 := by decide
  refine ⟨?_, ?_, ?_⟩
  · intro hle
    have hle2 : s.length ≤ width := hle
    simp [ellipsize, h0, hle2]
  · intro h3 hlt
    have hnle : ¬ s.data.length ≤ width := by omega
    have hnw : ¬ width < 3 := by omega
    have hlen : (s.data.take (width - ("...").data.length) ++ ("...").data).length
        = width := by
      rw [List.length_append, List.length_take, e3]
      omega
    refine ⟨?_, ?_⟩
    · simp only [ellipsize, if_neg h0, e3] at hlen ⊢
      rw [if_neg hnle, if_neg hnw, if_pos hlen]
    · show (s.data.take (width - 3) ++ ("...").data).length = width
      rw [e3] at hlen
      exact hlen
  · intro h3 hlt
    have hnle : ¬ s.data.length ≤ width := by omega
    have hw3 : width < ("...").data.length := by omega
    simp only [ellipsize, if_neg h0, e3] at hw3 ⊢
    rw [if_neg hnle, if_pos hw3]

/-- The prompt loop never leaks an exception while the default key (if any)
is a table key: it always returns a value. -/
theorem choicesPromptRun_isSome (p : String) (table : String → Option String)
    (hnd : String → String) (dflt : Option String)
    (hd : ∀ d, dflt = some d → (table d).isSome) :
    ∀ (inputs : List String) (out : String),
      (choicesPromptRun p table dflt hnd inputs out).isSome := by
  intro inputs
  induction inputs with
  | nil => intro out; simp [choicesPromptRun]
  | cons line rest ih =>
    intro out
    by_cases hb : normalize_choice_str line = ""
    · cases hdf : dflt with
      | none => simpa [choicesPromptRun, hb, hdf] using ih _
      | some d =>
        obtain ⟨c, hc⟩ := Option.isSome_iff_exists.mp (hd d hdf)
        simp [choicesPromptRun, hb, hdf, hc]
    · cases hc : table (normalize_choice_str line) with
      | some c => simp [choicesPromptRun, hb, hc]
      | none => simpa [choicesPromptRun, hb, hc] using ih _

/-- With no default, every run of the prompt loop returns a value whose
output extends the incoming sink by the prompt label first: the loop writes
the prompt before anything else on every path. -/
theorem choicesPromptRun_output_shape (p : String)
    (table : String → Option String) (hnd : String → String) :
    ∀ (inputs : List String) (out : String), ∃ r rest t,
      choicesPromptRun p table none hnd inputs out
        = some (r, out ++ p ++ t, rest) := by
  intro inputs
  induction inputs with
  | nil =>
    intro out
    exact ⟨none, [], "\n", by simp [choicesPromptRun]⟩
  | cons line rest ih =>
    intro out
    by_cases hb : normalize_choice_str line = ""
    · obtain ⟨r, rest', t, ht⟩ := ih (out ++ p)
      refine ⟨r, rest', p ++ t, ?_⟩
      simp only [choicesPromptRun, hb, if_pos]
      rw [ht, String.append_assoc (out ++ p) p t]
    · cases hc : table (normalize_choice_str line) with
      | some c =>
        refine ⟨some c, rest, "", ?_⟩
        simp [choicesPromptRun, hb, hc]
      | none =>
        obtain ⟨r, rest', t, ht⟩ := ih (out ++ p ++ hnd line ++ "\n" ++ "\n")
        refine ⟨r, rest', hnd line ++ "\n" ++ "\n" ++ p ++ t, ?_⟩
        simp only [choicesPromptRun, hb, if_neg, hc]
        rw [ht]
        simp [String.append_assoc]

/-- C6: `numbered_choices_prompt` over a one-element collection returns
index `0` at once — `some 0` with an empty output sink and the input lines
untouched (zero reads) — for every default index, preamble, prompt and
formatter; `choices_prompt` has no such special case: over a single choice
it still runs the loop, and whatever it returns, its output sink starts
with the prompt label. -/
theorem claim_C6_single_choice_shortcut :
    (∀ (c : String) (di : Option Int) (pre : String) (pArg : Option String)
        (fmt : Option (String → String)) (inputs : List String),
        numbered_choices_prompt [c] di pre pArg fmt inputs
          = some (some 0, "", inputs))
    ∧ (∀ (p c : String) (hnd : Option (String → String)) (inputs : List String),
        ∃ r out rest t,
          choices_prompt p [.inl c] none hnd inputs = some (r, out, rest)
            ∧ out = p ++ t) := by
  constructor
  · intro c di pre pArg fmt inputs
    simp [numbered_choices_prompt]
  · intro p c hnd inputs
    obtain ⟨r, rest, t, ht⟩ :=
      choicesPromptRun_output_shape p (buildTable ([Sum.inl c].map asTuple))
        (hnd.getD default_invalid_handler) inputs ""
    refine ⟨r, p ++ t, rest, t, ?_, rfl⟩
    simpa [choices_prompt] using ht

/-- C7: with a non-`None` default whose normalized form is not a key of the
built table, `choices_prompt` hits the construction-time assertion (the
`none` result) — there is no output/remaining-input component at all, so
nothing was written, flushed or read; with the normalized default present
in the table the assertion passes and the prompt returns a value. -/
theorem claim_C7_default_assertion (p d0 : String)
    (choices : List (String ⊕ List String)) (hnd : Option (String → String))
    (inputs : List String) :
    (choices ≠ [] →
      buildTable (choices.map asTuple) (normalize_choice_str d0) = none →
      choices_prompt p choices (some d0) hnd inputs = none)
    ∧ ((buildTable (choices.map asTuple) (normalize_choice_str d0)).isSome →
        ∃ r, choices_prompt p choices (some d0) hnd inputs = some r) := by
  constructor
  · intro hne htab
    cases choices with
    | nil => exact absurd rfl hne
    | cons c cs =>
      simp only [List.map_cons] at htab
      simp [choices_prompt, htab]
  · intro hs
    cases choices with
    | nil => simp [buildTable] at hs
    | cons c cs =>
      have hrun := choicesPromptRun_isSome p
        (buildTable ((c :: cs).map asTuple)) (hnd.getD default_invalid_handler)
        (some (normalize_choice_str d0))
        (by intro d hdeq; cases hdeq; exact hs) inputs ""
      obtain ⟨r, hr⟩ := Option.isSome_iff_exists.mp hrun
      refine ⟨r, ?_⟩
      simp only [List.map_cons] at hs hr
      simpa [choices_prompt, hs] using hr

/-- C7 witness: default `"qux"` over `Foo`/`Bar` fails the assertion with no
result; default `"bar"` passes it and the prompt returns a value. -/
theorem claim_C7_default_assertion_witness :
    choices_prompt "? " [.inl "Foo", .inl "Bar"] (some "qux") none [] = none
    ∧ ∃ r, choices_prompt "? " [.inl "Foo", .inl "Bar"] (some "bar") none []
        = some r :=
  ⟨(claim_C7_default_assertion "? " "qux" [.inl "Foo", .inl "Bar"] none []).1
      (by decide) (by decide),
   (claim_C7_default_assertion "? " "bar" [.inl "Foo", .inl "Bar"] none []).2
      (by decide)⟩

/-- C10: the single-choice early return of `numbered_choices_prompt`
precedes the `default_index` range assertion, so a one-element collection
returns index `0` for every `default_index` — negative or past the end —
with no assertion failure; with two or more choices the same out-of-range
`default_index` does trip the assertion (`none`), showing the check exists
and is simply skipped by the early return. -/
theorem claim_C10_single_choice_skips_assert (c c1 c2 : String) (pre : String)
    (pArg : Option String) (fmt : Option (String → String))
    (inputs : List String) :
    (∀ di : Int,
        numbered_choices_prompt [c] (some di) pre pArg fmt inputs
          = some (some 0, "", inputs))
    ∧ (∀ di : Int, di < 0 ∨ 2 ≤ di →
        numbered_choices_prompt [c1, c2] (some di) pre pArg fmt inputs = none) := by
  constructor
  · intro di
    simp [numbered_choices_prompt]
  · intro di hdi
    simp only [numbered_choices_prompt]
    simp
    intro h1 h2
    exact absurd h2 (by omega)

/-- C10 witness: a negative default index is accepted (ignored) with one
choice and rejected with two. -/
theorem claim_C10_single_choice_skips_assert_witness :
    numbered_choices_prompt ["only"] (some (-5)) "" none none ["x"]
      = some (some 0, "", ["x"])
    ∧ ((-5 : Int) < 0 ∨ (2 : Int) ≤ -5)
    ∧ numbered_choices_prompt ["a", "b"] (some (-5)) "" none none ["x"] = none :=
  ⟨(claim_C10_single_choice_skips_assert "only" "a" "b" "" none none ["x"]).1 (-5),
   Or.inl (by decide),
   (claim_C10_single_choice_skips_assert "only" "a" "b" "" none none ["x"]).2 (-5)
     (Or.inl (by decide))⟩

/-- A list is a leading run of itself. -/
theorem isPrefixOf_self {α : Type} [BEq α] [LawfulBEq α] :
    ∀ l : List α, List.isPrefixOf l l = true := by
  intro l
  induction l with
  | nil => rfl
  | cons a l ih => simp [List.isPrefixOf, ih]

/-- Searching through a filtered list finds the same first element as
searching the whole list when the search predicate implies the filter. -/
theorem find?_filter_of_imp {α : Type} (q p : α → Bool)
    (himp : ∀ a, q a = true → p a = true) :
    ∀ l : List α, (l.filter p).find? q = l.find? q := by
  intro l
  induction l with
  | nil => rfl
  | cons a l ih =>
    by_cases hq : q a = true
    · simp [List.filter_cons, himp a hq, List.find?_cons, hq]
    · by_cases hp : p a = true
      · simp [List.filter_cons, hp, List.find?_cons, hq, ih]
      · simp [List.filter_cons, hp, List.find?_cons, hq, ih]

/-- C1: for a response with non-empty normalized key, the modelled legacy
free-input lookup (exact-equality pass over the stored choices, then the
prefix-collection pass) behaves exactly as the claim's reference
definition: collect every stored choice whose normalized form has the key
as a prefix; zero matches is `notFound`, one match is that choice, several
matches are `ambiguous` unless one of them equals the key exactly, in
which case that exact match wins. -/
theorem claim_C1_free_input_lookup (choices : List String) (response : String)
    (hne : normalize_choice_str response ≠ "") :
    freeInputLookup choices response
      = freeInputLookupRef choices (normalize_choice_str response) := by
  have himp : ∀ c : String,
      (normalize_choice_str c == normalize_choice_str response) = true →
      pyStartswith (normalize_choice_str c) (normalize_choice_str response)
        = true := by
    intro c hc
    have hceq : normalize_choice_str c = normalize_choice_str response := by
      simpa using hc
    rw [pyStartswith, hceq]
    exact isPrefixOf_self _
  rw [freeInputLookup, freeInputLookupRef]
  rw [if_neg hne]
  rw [← find?_filter_of_imp _ _ himp choices]
  cases hf : (choices.filter
      (fun c => pyStartswith (normalize_choice_str c)
        (normalize_choice_str response))).find?
      (fun c => normalize_choice_str c == normalize_choice_str response) with
  | some c =>
    cases hms : choices.filter
        (fun c => pyStartswith (normalize_choice_str c)
          (normalize_choice_str response)) with
    | nil => rw [hms] at hf; simp at hf
    | cons c1 ms =>
      cases ms with
      | nil =>
        rw [hms] at hf
        have : c1 = c := by
          by_cases hq : (normalize_choice_str c1 ==
              normalize_choice_str response) = true
          · simpa [List.find?, hq] using hf
          · simp [List.find?, hq] at hf
        simp [this]
      | cons c2 ms2 =>
        rw [hms] at hf
        simp [hf]
  | none =>
    cases hms : choices.filter
        (fun c => pyStartswith (normalize_choice_str c)
          (normalize_choice_str response)) with
    | nil => simp
    | cons c1 ms =>
      cases ms with
      | nil => simp
      | cons c2 ms2 =>
        rw [hms] at hf
        simp [hf]

/-- C1 witness: choices `"Foo"` and `"FooBar"` with response `"Foo"`
(normalized key `"foo"`, non-empty): the lookup agrees with the reference
definition, and both resolve the exact match `"Foo"` rather than reporting
ambiguity. -/
theorem claim_C1_free_input_lookup_witness :
    normalize_choice_str "Foo" ≠ ""
    ∧ freeInputLookup ["Foo", "FooBar"] "Foo"
        = freeInputLookupRef ["Foo", "FooBar"] (normalize_choice_str "Foo")
    ∧ freeInputLookup ["Foo", "FooBar"] "Foo" = .found "Foo" :=
  ⟨by decide,
   claim_C1_free_input_lookup ["Foo", "FooBar"] "Foo" (by decide),
   by decide⟩

/-- Packing a valid scalar value below the surrogate range round-trips. -/
theorem toNat_ofNat_lt (n : Nat) (h : n < 55296) : (Char.ofNat n).toNat = n := by
  have hv : n.isValidChar := Or.inl h
  rw [Char.ofNat, dif_pos hv]
  rfl

/-- Every code point produced by `charFold` is fold-invariant: case folding
is idempotent code point by code point. -/
theorem charFold_mem_fold {c d : Char} (hd : d ∈ charFold c) : charFold d = [d] := by
  by_cases h1 : 65 ≤ c.toNat ∧ c.toNat ≤ 90
  · rw [charFold, if_pos h1] at hd
    simp only [List.mem_singleton] at hd
    subst hd
    have ht : (Char.ofNat (c.toNat + 32)).toNat = c.toNat + 32 :=
      toNat_ofNat_lt _ (by omega)
    rw [charFold, if_neg (by rw [ht]; omega), if_neg (by rw [ht]; omega),
      if_neg (by rw [ht]; omega)]
  · by_cases h2 : c.toNat = 223
    · rw [charFold, if_neg h1, if_pos h2] at hd
      have hds : d = Char.ofNat 115 := by
        rcases List.mem_cons.mp hd with h | h
        · exact h
        · simpa using h
      subst hds
      decide
    · by_cases h3 : 192 ≤ c.toNat ∧ c.toNat ≤ 222 ∧ c.toNat ≠ 215
      · rw [charFold, if_neg h1, if_neg h2, if_pos h3] at hd
        simp only [List.mem_singleton] at hd
        subst hd
        have ht : (Char.ofNat (c.toNat + 32)).toNat = c.toNat + 32 :=
          toNat_ofNat_lt _ (by omega)
        rw [charFold, if_neg (by rw [ht]; omega), if_neg (by rw [ht]; omega),
          if_neg (by rw [ht]; omega)]
      · rw [charFold, if_neg h1, if_neg h2, if_neg h3] at hd
        simp only [List.mem_singleton] at hd
        subst hd
        rw [charFold, if_neg h1, if_neg h2, if_neg h3]

/-- Case folding a non-whitespace code point yields only non-whitespace
code points. -/
theorem charFold_mem_space {c d : Char} (hc : isPySpace c = false)
    (hd : d ∈ charFold c) : isPySpace d = false := by
  by_cases h1 : 65 ≤ c.toNat ∧ c.toNat ≤ 90
  · rw [charFold, if_pos h1] at hd
    simp only [List.mem_singleton] at hd
    subst hd
    have ht : (Char.ofNat (c.toNat + 32)).toNat = c.toNat + 32 :=
      toNat_ofNat_lt _ (by omega)
    simp only [isPySpace, decide_eq_false_iff_not]
    rw [ht]
    omega
  · by_cases h2 : c.toNat = 223
    · rw [charFold, if_neg h1, if_pos h2] at hd
      have hds : d = Char.ofNat 115 := by
        rcases List.mem_cons.mp hd with h | h
        · exact h
        · simpa using h
      subst hds
      decide
    · by_cases h3 : 192 ≤ c.toNat ∧ c.toNat ≤ 222 ∧ c.toNat ≠ 215
      · rw [charFold, if_neg h1, if_neg h2, if_pos h3] at hd
        simp only [List.mem_singleton] at hd
        subst hd
        have ht : (Char.ofNat (c.toNat + 32)).toNat = c.toNat + 32 :=
          toNat_ofNat_lt _ (by omega)
        simp only [isPySpace, decide_eq_false_iff_not]
        rw [ht]
        omega
      · rw [charFold, if_neg h1, if_neg h2, if_neg h3] at hd
        simp only [List.mem_singleton] at hd
        subst hd
        exact hc

/-- Case folding never erases a code point. -/
theorem charFold_ne_nil (c : Char) : charFold c ≠ [] := by
  rw [charFold]
  split
  · simp
  · split
    · simp
    · split <;> simp

/-- A list of fold-invariant code points folds to itself. -/
theorem flatMap_charFold_of_fixed {l : List Char}
    (h : ∀ d ∈ l, charFold d = [d]) : l.flatMap charFold = l := by
  induction l with
  | nil => rfl
  | cons a l ih =>
    rw [List.flatMap_cons, h a (List.mem_cons_self a l),
      ih (fun d hd => h d (List.mem_cons_of_mem a hd))]
    rfl

/-- Case folding the code-point list is idempotent. -/
theorem pyCasefoldList_idem (l : List Char) :
    pyCasefoldList (pyCasefoldList l) = pyCasefoldList l := by
  unfold pyCasefoldList
  induction l with
  | nil => rfl
  | cons a l ih =>
    rw [List.flatMap_cons, List.flatMap_append, ih,
      flatMap_charFold_of_fixed (fun d hd => charFold_mem_fold hd)]

/-- What is left after `dropWhile` is empty or starts with an element the
predicate rejects. -/
theorem dropWhile_shape (p : Char → Bool) (l : List Char) :
    l.dropWhile p = [] ∨ ∃ c cs, l.dropWhile p = c :: cs ∧ p c = false := by
  induction l with
  | nil => exact Or.inl rfl
  | cons a l ih =>
    by_cases h : p a = true
    · simpa [List.dropWhile_cons, h] using ih
    · exact Or.inr ⟨a, l, by simp [List.dropWhile_cons, h],
        by simpa using h⟩

/-- `dropWhile` removes a leading run: what remains is a terminal run. -/
theorem dropWhile_is_terminal (p : Char → Bool) :
    ∀ l : List Char, ∃ w, w ++ l.dropWhile p = l := by
  intro l
  induction l with
  | nil => exact ⟨[], rfl⟩
  | cons a l ih =>
    by_cases h : p a = true
    · obtain ⟨w, hw⟩ := ih
      exact ⟨a :: w, by simp [List.dropWhile_cons, h, hw]⟩
    · exact ⟨[], by simp [List.dropWhile_cons, h]⟩

/-- The stripped list is empty or begins with a non-whitespace code point. -/
theorem pyStripList_shape (l : List Char) :
    pyStripList l = [] ∨
      ∃ c cs, pyStripList l = c :: cs ∧ isPySpace c = false := by
  obtain ⟨w, hw⟩ :=
    dropWhile_is_terminal isPySpace (l.dropWhile isPySpace).reverse
  have hpre : pyStripList l ++ w.reverse = l.dropWhile isPySpace := by
    have := congrArg List.reverse hw
    rw [List.reverse_append, List.reverse_reverse] at this
    exact this
  rcases dropWhile_shape isPySpace l with hD | ⟨c, cs, hD, hpc⟩
  · rw [hD] at hpre
    exact Or.inl (List.append_eq_nil.mp hpre).1
  · rw [hD] at hpre
    cases hT : pyStripList l with
    | nil => exact Or.inl rfl
    | cons a ts =>
      rw [hT, List.cons_append] at hpre
      have hac : a = c := (List.cons.injEq _ _ _ _ ▸ hpre).1
      exact Or.inr ⟨a, ts, rfl, hac ▸ hpc⟩

/-- The reverse of the stripped list is empty or begins with a
non-whitespace code point (the stripped list ends cleanly too). -/
theorem pyStripList_reverse_shape (l : List Char) :
    (pyStripList l).reverse = [] ∨
      ∃ c cs, (pyStripList l).reverse = c :: cs ∧ isPySpace c = false := by
  rw [pyStripList, List.reverse_reverse]
  exact dropWhile_shape isPySpace (l.dropWhile isPySpace).reverse

/-- Reversing a case-folded list folds the reversed list with reversed
per-code-point folds. -/
theorem reverse_pyCasefoldList (l : List Char) :
    (pyCasefoldList l).reverse
      = l.reverse.flatMap (fun c => (charFold c).reverse) := by
  unfold pyCasefoldList
  induction l with
  | nil => rfl
  | cons a l ih =>
    simp [List.flatMap_cons, List.flatMap_append, List.reverse_append, ih]

/-- Stripping is the identity on the case-folded form of a stripped list:
folding cannot create boundary whitespace. -/
theorem pyStripList_pyCasefoldList_pyStripList (l : List Char) :
    pyStripList (pyCasefoldList (pyStripList l))
      = pyCasefoldList (pyStripList l) := by
  have hG1 : (pyCasefoldList (pyStripList l)).dropWhile isPySpace
      = pyCasefoldList (pyStripList l) := by
    rcases pyStripList_shape l with h | ⟨c, cs, h, hpc⟩
    · rw [h]
      rfl
    · rw [h]
      show (charFold c ++ pyCasefoldList cs).dropWhile isPySpace = _
      cases hcf : charFold c with
      | nil => exact absurd hcf (charFold_ne_nil c)
      | cons d ds =>
        have hd : isPySpace d = false :=
          charFold_mem_space hpc (by rw [hcf]; exact List.mem_cons_self d ds)
        rw [List.cons_append, List.dropWhile_cons_of_neg (by simp [hd])]
        simp [pyCasefoldList, List.flatMap_cons, hcf]
  have hG2 : (pyCasefoldList (pyStripList l)).reverse.dropWhile isPySpace
      = (pyCasefoldList (pyStripList l)).reverse := by
    rw [reverse_pyCasefoldList]
    rcases pyStripList_reverse_shape l with h | ⟨c, cs, h, hpc⟩
    · rw [h]
      rfl
    · rw [h]
      show ((charFold c).reverse ++
          cs.flatMap (fun c => (charFold c).reverse)).dropWhile isPySpace = _
      cases hcf : (charFold c).reverse with
      | nil =>
        exact absurd (by simpa using congrArg List.reverse hcf)
          (charFold_ne_nil c)
      | cons d ds =>
        have hd : isPySpace d = false := by
          refine charFold_mem_space hpc ?_
          have : d ∈ (charFold c).reverse := by
            rw [hcf]; exact List.mem_cons_self d ds
          exact List.mem_reverse.mp this
        rw [List.cons_append, List.dropWhile_cons_of_neg (by simp [hd])]
        simp [List.flatMap_cons, hcf]
  show ((((pyCasefoldList (pyStripList l)).dropWhile
      isPySpace).reverse).dropWhile isPySpace).reverse
    = pyCasefoldList (pyStripList l)
  rw [hG1, hG2, List.reverse_reverse]

/-- C8: the normalization function — strip surrounding whitespace, then
case-fold — is idempotent: `normalize(normalize(s)) == normalize(s)` for
every string `s`. -/
theorem claim_C8_normalize_idempotent (s : String) :
    normalize_choice_str (normalize_choice_str s) = normalize_choice_str s := by
  unfold normalize_choice_str
  show (⟨pyCasefoldList (pyStripList (pyCasefoldList (pyStripList s.data)))⟩ : String) = _
  rw [pyStripList_pyCasefoldList_pyStripList, pyCasefoldList_idem]

/-- C9 witness: the three specified examples. -/
theorem claim_C9_ellipsize_witness :
    ellipsize "abcdefgh" 5 = some ⟨("abcdefgh" : String).data.take 2 ++ ("...").data⟩
    ∧ ellipsize "ab" 5 = some "ab"
    ∧ ellipsize "abcdef" 2 = some ⟨("abcdef" : String).data.take 2⟩ :=
  ⟨((claim_C9_ellipsize "abcdefgh" 5 (by decide)).2.1 (by decide) (by decide)).1,
   (claim_C9_ellipsize "ab" 5 (by decide)).1 (by decide),
   (claim_C9_ellipsize "abcdef" 2 (by decide)).2.2 (by decide) (by decide)⟩
